import Mathlib

/-!
Verification of the ChromaDB wrapper service (`src/backend/rag/server.py`)
against its natural-language specification.

The service is a thin HTTP layer over an external vector store ("the engine",
ChromaDB) plus black-box embedding models and an optional cross-encoder
reranker.  We shallowly embed the request handlers as pure Lean functions over
an explicit engine state.  Black-box collaborators (embedding models, the
cross-encoder scorer, the nearest-neighbour search) are modelled as function
parameters, exactly as the spec treats them (text → vector, (query, text) →
scalar, vectors → ranked hits).  Machine floats appearing only as opaque,
ordered scalars (scores, distances, vector components) are modelled as `Rat`.

Each handler returns `Except Nat Response × ChromaState`: the `Nat` is the
HTTP status code of a raised `HTTPException` (or of the generic 500 handler),
and the returned state is the engine state after the call, which every
error path leaves untouched exactly as the Python `raise` does.
-/

/-- Metadata values storable by the engine.  ChromaDB accepts strings, ints,
floats and booleans as metadata values (it rejects `None` at `add` time, so a
stored document never carries a null value); float-valued metadata is modelled
inside `int` precision-irrelevantly via `str`/`int`/`bool` since no claim
computes with numeric metadata. -/
inductive MValue where
  | str (s : String)
  | int (n : Int)
  | bool (b : Bool)
  deriving DecidableEq

/-- Python `str(value)` on a metadata value (`str(True) = "True"`). -/
def pyStr : MValue → String
  | .str s => s
  | .int n => toString n
  | .bool b => if b then "True" else "False"

/-- Python truthiness of a metadata value: `""`, `0` and `False` are falsy. -/
def pyTruthy : MValue → Bool
  | .str s => s ≠ ""
  | .int n => n ≠ 0
  | .bool b => b

/-- A Python dict with string keys, as an association list (keys unique in any
dict produced by JSON parsing; lookup returns the first binding). -/
abbrev MMap := List (String × MValue)

/-- Lookup in a metadata map, i.e. Python `d.get(k)` / `k in d`. -/
def MMap.get (m : MMap) (k : String) : Option MValue :=
  List.lookup k m

/-- Python `d[k] = v`: overwrite the binding in place if the key exists,
otherwise append it (insertion order is preserved). -/
def dictSet (m : MMap) (k : String) (v : MValue) : MMap :=
  if (m.get k).isSome then m.map (fun p => if p.1 = k then (k, v) else p)
  else m ++ [(k, v)]

/-- Python `«a» | «b»` via a double-splat literal, as in the source's
`updated_metadata = ` double-splat of `existing_metadata` then
`request.metadata`: keys of `a` keep their position (values overridden by `b`
where `b` binds the key), keys only in `b` are appended in `b`'s order. -/
def dictMerge (a b : MMap) : MMap :=
  (a.map fun p =>
    match b.get p.1 with
    | some v => (p.1, v)
    | none => p) ++
  b.filter fun p => (a.get p.1).isNone

/-- A loaded embedding model: the registry stores the loaded handle (modelled
as its black-box text-to-vector function), the configured path and the output
dimensionality determined at load time. -/
structure EmbModel where
  name : String
  dimensions : Nat
  encode : String → List Rat

/-- Process-wide registries built at startup and immutable afterwards: the
`embedding_models` dict keyed by model id, and the optional cross-encoder,
modelled as its black-box (query, text) → score function. -/
structure ServerEnv where
  embedding_models : List (String × EmbModel)
  cross_encoder_model : Option (String → String → Rat)

/-- A document as stored by the engine: id, raw text, metadata, vector. -/
structure StoredDoc where
  id : String
  text : String
  metadata : MMap
  embedding : List Rat
  deriving DecidableEq

/-- A ChromaDB collection: unique name, metadata map, stored documents. -/
structure Collection where
  name : String
  metadata : MMap
  docs : List StoredDoc
  deriving DecidableEq

/-- The engine state: the list of collections held by the Chroma client. -/
structure ChromaState where
  collections : List Collection
  deriving DecidableEq

/-- Engine lookup `chroma_client.get_collection(name)`; `none` models the
exception Chroma raises when the collection does not exist. -/
def ChromaState.getCollection (st : ChromaState) (name : String) :
    Option Collection :=
  st.collections.find? fun c => c.name == name

/-- Engine `chroma_client.create_collection(name, metadata)`; `none` models
the unique-constraint error Chroma raises on a duplicate name. -/
def ChromaState.createCollection (st : ChromaState) (name : String)
    (metadata : MMap) : Option (Collection × ChromaState) :=
  match st.getCollection name with
  | some _ => none
  | none =>
    let c : Collection := { name := name, metadata := metadata, docs := [] }
    some (c, ⟨st.collections ++ [c]⟩)

/-- Engine `collection.modify(metadata=...)`: replace the metadata of the
named collection. -/
def ChromaState.modifyMetadata (st : ChromaState) (name : String)
    (metadata : MMap) : ChromaState :=
  ⟨st.collections.map fun c =>
    if c.name == name then { c with metadata := metadata } else c⟩

/-- Engine `collection.add(documents, metadatas, ids, embeddings)`: append the
batch to the named collection in one bulk call. -/
def ChromaState.addDocs (st : ChromaState) (name : String)
    (batch : List StoredDoc) : ChromaState :=
  ⟨st.collections.map fun c =>
    if c.name == name then { c with docs := c.docs ++ batch } else c⟩

/-- Engine `collection.delete(ids=ids)`: remove the documents whose id occurs
in `ids`; ids not present are silently ignored by Chroma. -/
def ChromaState.deleteDocs (st : ChromaState) (name : String)
    (ids : List String) : ChromaState :=
  ⟨st.collections.map fun c =>
    if c.name == name then
      { c with docs := c.docs.filter fun d => ¬ ids.contains d.id }
    else c⟩

/-- Helper `get_embedding_model_for_collection` (server.py lines 274-305):
reads `embedding_model` from the collection metadata; 400 when the key is
missing or falsy (a legacy collection), 503 when the id is not among the
loaded models.  A non-string id is never equal to a string dict key, so it
also fails the `model_id not in embedding_models` test. -/
def get_embedding_model_for_collection (env : ServerEnv)
    (collection : Collection) : Except Nat EmbModel :=
  match collection.metadata.get "embedding_model" with
  | none => .error 400
  | some mv =>
    if pyTruthy mv then
      match mv with
      | .str model_id =>
        match List.lookup model_id env.embedding_models with
        | some info => .ok info
        | none => .error 503
      | _ => .error 503
    else .error 400

/-- Request body of `POST /collections` (pydantic `CreateCollectionRequest`);
`metadata` defaults to an empty dict and `embedding_model` to `None`. -/
structure CreateCollectionRequest where
  name : String
  metadata : Option MMap := some []
  embedding_model : Option String := none

/-- Response of a successful `POST /collections`. -/
structure CreateCollectionResponse where
  status : String
  name : String
  metadata : MMap
  deriving DecidableEq

/-- Endpoint `POST /collections` (`create_collection`, server.py lines
421-470).  The source first runs

  a `try` block that calls `get_collection(name)` and raises
  `HTTPException(400, "... already exists")`, under a bare `except: pass`.

The bare `except` catches the `HTTPException` raised on a successful lookup
as well, so the pre-check never escapes and control always falls through to
the validation below; it is therefore a no-op in the embedding.  A duplicate
name consequently surfaces as the engine's unique-constraint error, which the
trailing generic handler converts to a 500. -/
def create_collection (env : ServerEnv) (st : ChromaState)
    (request : CreateCollectionRequest) :
    Except Nat CreateCollectionResponse × ChromaState :=
  match request.embedding_model with
  | none => (.error 400, st)
  | some model_id =>
    if model_id = "" then (.error 400, st)
    else if (List.lookup model_id env.embedding_models).isNone then
      (.error 400, st)
    else
      let collection_metadata :=
        dictSet (request.metadata.getD []) "embedding_model" (.str model_id)
      match st.createCollection request.name
          (dictSet collection_metadata "hnsw:space" (.str "cosine")) with
      | none => (.error 500, st)
      | some (collection, st') =>
        (.ok { status := "created", name := request.name,
               metadata := collection.metadata }, st')

/-- Request body of `PUT /collections/(name)/metadata`. -/
structure UpdateCollectionMetadataRequest where
  metadata : MMap

/-- Response of a successful metadata update. -/
structure UpdateMetadataResponse where
  status : String
  name : String
  metadata : MMap
  merge : Bool
  deriving DecidableEq

/-- Endpoint `PUT /collections/(name)/metadata` (`update_collection_metadata`,
server.py lines 473-515).  `merge=true` computes the double-splat merge of
the existing metadata with the request's, the request winning conflicts;
`merge=false` (the default) replaces the map outright.  A missing collection
makes the engine lookup raise, which the generic handler turns into 500. -/
def update_collection_metadata (st : ChromaState) (name : String)
    (request : UpdateCollectionMetadataRequest) (merge : Bool := false) :
    Except Nat UpdateMetadataResponse × ChromaState :=
  match st.getCollection name with
  | none => (.error 500, st)
  | some collection =>
    let updated_metadata :=
      if merge then dictMerge collection.metadata request.metadata
      else request.metadata
    let st' := st.modifyMetadata name updated_metadata
    (.ok { status := "updated", name := name, metadata := updated_metadata,
           merge := merge }, st')

/-- Response of a successful bulk document delete. -/
structure DeleteDocumentsResponse where
  status : String
  collection : String
  count : Nat
  deriving DecidableEq

/-- Endpoint `DELETE /collections/(name)/documents` (`delete_documents`,
server.py lines 597-612): forwards the ids to the engine and reports
`len(ids)` as the count, whether or not each id named a stored document. -/
def delete_documents (st : ChromaState) (collection_name : String)
    (ids : List String) : Except Nat DeleteDocumentsResponse × ChromaState :=
  match st.getCollection collection_name with
  | none => (.error 500, st)
  | some _ =>
    let st' := st.deleteDocs collection_name ids
    (.ok { status := "deleted", collection := collection_name,
           count := ids.length }, st')

/-- Response of `GET /collections/(name)/metadata-values`. -/
structure MetadataValuesResponse where
  field : String
  values : List String
  count : Nat
  deriving DecidableEq

/-- Endpoint `GET /collections/(name)/metadata-values` (`get_metadata_values`,
server.py lines 749-809): fetches every document, collects the set of
stringified values of `field` from documents whose metadata binds it, and
returns them sorted.  The source's `if metadata and field in metadata` guard
reduces to a successful lookup (an empty or missing metadata map binds
nothing), and its `if value is not None` test is vacuous because the engine
never stores a null metadata value.  Python's `sorted` on the set of strings
is the stable ascending sort of the deduplicated value list. -/
def get_metadata_values (st : ChromaState) (collection_name : String)
    (field : String) : Except Nat MetadataValuesResponse × ChromaState :=
  match st.getCollection collection_name with
  | none => (.error 500, st)
  | some collection =>
    let values_set :=
      (collection.docs.filterMap fun d => (d.metadata.get field).map pyStr).dedup
    let unique_values := values_set.insertionSort (· ≤ ·)
    (.ok { field := field, values := unique_values,
           count := unique_values.length }, st)

/-- One entry of the `documents` array of `POST /collections/(name)/documents`.
The source declares `Dict[str, Any]` and reads the three documented fields;
the embedding restricts each to its documented type, `none` standing for an
absent key. -/
structure DocumentReq where
  text : Option String := none
  metadata : Option MMap := none
  id : Option String := none
  deriving DecidableEq

/-- Request body of `POST /collections/(name)/documents`. -/
structure AddDocumentsRequest where
  documents : List DocumentReq
  deriving DecidableEq

/-- Response of a successful `POST /collections/(name)/documents`. -/
structure AddDocumentsResponse where
  status : String
  collection : String
  count : Nat
  ids : List String
  deriving DecidableEq

/-- The per-document preparation loop of `add_documents` (server.py lines
554-564): for the document at index `i`, `doc.get('text', '')` must be a
non-empty string or the loop raises 400; otherwise the text, the metadata
(defaulting to an empty dict) and the id are accumulated.  The id is
`doc.get('id') or f"doc_«uuid4()»"`: a missing or falsy (empty-string)
supplied id is replaced by a generated one.  `uuids i` stands for the
fresh value drawn from `uuid.uuid4()` for the document at index `i`. -/
def processDocuments (uuids : Nat → String) :
    List DocumentReq → Nat → Except Nat (List (String × MMap × String))
  | [], _ => .ok []
  | doc :: rest, i =>
    let text := doc.text.getD ""
    if text = "" then .error i
    else
      let id :=
        match doc.id with
        | some s => if s = "" then "doc_" ++ uuids i else s
        | none => "doc_" ++ uuids i
      (processDocuments uuids rest (i + 1)).map
        fun triples => (text, doc.metadata.getD [], id) :: triples

/-- Endpoint `POST /collections/(name)/documents` (`add_documents`, server.py
lines 534-594).  The engine lookup of a missing collection raises a Chroma
error that only the trailing generic handler catches, yielding 500.  An empty
`documents` array yields 400.  The bound model is resolved before the
per-document loop, so its failures (400 legacy metadata, 503 unloaded model)
precede text validation.  On success all texts are batch-embedded and written
to the engine in one bulk call. -/
def add_documents (env : ServerEnv) (uuids : Nat → String) (st : ChromaState)
    (collection_name : String) (request : AddDocumentsRequest) :
    Except Nat AddDocumentsResponse × ChromaState :=
  match st.getCollection collection_name with
  | none => (.error 500, st)
  | some collection =>
    if request.documents.isEmpty then (.error 400, st)
    else
      match get_embedding_model_for_collection env collection with
      | .error e => (.error e, st)
      | .ok model =>
        match processDocuments uuids request.documents 0 with
        | .error _ => (.error 400, st)
        | .ok triples =>
          let texts := triples.map fun t => t.1
          let ids := triples.map fun t => t.2.2
          if texts.isEmpty then (.error 400, st)
          else
            let batch := triples.map fun t =>
              { id := t.2.2, text := t.1, metadata := t.2.1,
                embedding := model.encode t.1 : StoredDoc }
            let st' := st.addDocs collection.name batch
            (.ok { status := "added", collection := collection_name,
                   count := texts.length, ids := ids }, st')

/-- Request body of `POST /query` (pydantic `QueryRequest`); `whereFilter`
models the optional `where` field, an opaque predicate passed through to the
engine unchanged. -/
structure QueryRequest where
  query : String
  top_k : Int := 3
  collection : Option String := none
  whereFilter : Option MMap := none

/-- One hit of a query response. -/
structure QueryHit where
  text : String
  distance : Rat
  metadata : MMap
  deriving DecidableEq

/-- Response of `POST /query`.  The early no-results branch of the source
returns a `message` and omits `collection_metadata`; the normal branch does
the opposite, hence both fields are optional. -/
structure QueryResponse where
  results : List QueryHit
  collection_metadata : Option MMap
  message : Option String
  deriving DecidableEq

/-- The shape of `collection.query(...)`'s reply: one inner list per query
embedding (the endpoint always sends exactly one). -/
structure EngineQueryReply where
  documents : List (List String)
  metadatas : List (List MMap)
  distances : List (List Rat)

/-- The engine's nearest-neighbour search, a black box receiving the query
embedding, `n_results` and the pass-through filter. -/
abbrev EngineQuery :=
  Collection → List Rat → Int → Option MMap → EngineQueryReply

/-- Endpoint `POST /query` (`query_db`, server.py lines 813-900).  A falsy
collection name (absent or empty) yields 400; a failed engine lookup yields
404; the bound model is resolved exactly as in ingestion; the query text is
embedded once and the engine searches with the pass-through filter.  The
guard `if not results or "metadatas" not in results or not
results["metadatas"]` reduces to emptiness of the outer metadatas list, in
which case the source returns empty `results` plus a message and no
collection metadata.  Otherwise each hit is assembled from the inner lists,
with `""` and `1.0` as out-of-range fallbacks for text and distance; indexing
`metadatas[i]` itself is always in range for the loop bound.  The endpoint
performs no engine write on any path. -/
def query_db (env : ServerEnv) (engineQuery : EngineQuery) (st : ChromaState)
    (request : QueryRequest) : Except Nat QueryResponse × ChromaState :=
  let falsyName :=
    match request.collection with
    | none => true
    | some s => s = ""
  if falsyName then (.error 400, st)
  else
    let collection_name := request.collection.getD ""
    match st.getCollection collection_name with
    | none => (.error 404, st)
    | some collection =>
      match get_embedding_model_for_collection env collection with
      | .error e => (.error e, st)
      | .ok model =>
        let query_embedding := model.encode request.query
        let collection_metadata := collection.metadata
        let results :=
          engineQuery collection query_embedding request.top_k
            request.whereFilter
        match results.metadatas with
        | [] =>
          (.ok { results := [], collection_metadata := none,
                 message := some "No relevant data found." }, st)
        | metadatas :: _ =>
          let documents := results.documents.headD []
          let distances := results.distances.headD []
          let retrieved_results := (List.range metadatas.length).map fun i =>
            { text := documents.getD i "",
              distance := distances.getD i 1,
              metadata := metadatas.getD i [] : QueryHit }
          (.ok { results := retrieved_results,
                 collection_metadata := some collection_metadata,
                 message := none }, st)

/-- One candidate of `POST /rerank`, `id` plus `text`. -/
structure RerankDoc where
  id : String
  text : String
  deriving DecidableEq

/-- Request body of `POST /rerank`. -/
structure RerankRequest where
  query : String
  documents : List RerankDoc
  top_k : Option Int := none

/-- One scored entry of the rerank response. -/
structure ScoredDoc where
  id : String
  score : Rat
  original_rank : Nat
  deriving DecidableEq

/-- Response of a successful `POST /rerank`. -/
structure RerankResponse where
  reranked : List ScoredDoc
  deriving DecidableEq

/-- The scoring comprehension of `rerank_documents`: entry `i` carries the
candidate's id, the cross-encoder score of the pair (query, text) — each pair
scored independently of the others — and `original_rank = i + 1`. -/
def scoreDocs (query : String) (predict : String → String → Rat) :
    List RerankDoc → Nat → List ScoredDoc
  | [], _ => []
  | doc :: rest, i =>
    { id := doc.id, score := predict query doc.text, original_rank := i + 1 } ::
      scoreDocs query predict rest (i + 1)

/-- Python list slicing `l[:k]` for the truncation `scored_docs[:top_k]`:
a non-negative bound takes a prefix, a negative bound drops that many
elements from the end. -/
def pySliceTo (l : List α) (k : Int) : List α :=
  if 0 ≤ k then l.take k.toNat else l.take (l.length - (-k).toNat)

/-- Comparison used by `scored_docs.sort(key=lambda x: x["score"],
reverse=True)`: CPython's sort is stable with `reverse=True` preserving the
input order of equal keys, which is exactly insertion sort under the relation
"the earlier element's score is at least the later one's". -/
def rerankLe (a b : ScoredDoc) : Prop :=
  b.score ≤ a.score

instance : DecidableRel rerankLe :=
  fun a b => inferInstanceAs (Decidable (b.score ≤ a.score))

/-- Endpoint `POST /rerank` (`rerank_documents`, server.py lines 904-946):
503 without a loaded cross-encoder; otherwise every (query, text) pair is
scored, the entries are stable-sorted by descending score, and
`if request.top_k:` truncates — so a falsy `top_k` (absent or zero) leaves
the list untruncated. -/
def rerank_documents (env : ServerEnv) (request : RerankRequest) :
    Except Nat RerankResponse :=
  match env.cross_encoder_model with
  | none => .error 503
  | some predict =>
    let scored_docs := scoreDocs request.query predict request.documents 0
    let sorted_docs := scored_docs.insertionSort rerankLe
    let truncated :=
      match request.top_k with
      | none => sorted_docs
      | some k => if k = 0 then sorted_docs else pySliceTo sorted_docs k
    .ok { reranked := truncated }

/-- The relation `rerankLe` is total because `Rat`'s order is. -/
instance : IsTotal ScoredDoc rerankLe :=
  ⟨fun a b => le_total b.score a.score⟩

/-- The relation `rerankLe` is transitive because `Rat`'s order is. -/
instance : IsTrans ScoredDoc rerankLe :=
  ⟨fun _ _ _ hab hbc => le_trans hbc hab⟩

/-- Fixture: a loaded embedding model under id `m`. -/
def modelFix : EmbModel :=
  { name := "mxbai-embed-large-v1", dimensions := 2, encode := fun _ => [1, 0] }

/-- Fixture: an environment with the single embedding model `m` loaded and no
cross-encoder. -/
def envFix : ServerEnv :=
  { embedding_models := [("m", modelFix)], cross_encoder_model := none }

/-- Fixture: an environment whose only loaded model id is `other`, so the
binding `m` of `collFix` does not resolve. -/
def envNoModel : ServerEnv :=
  { embedding_models := [("other", modelFix)], cross_encoder_model := none }

/-- Fixture: a deterministic cross-encoder scoring `good` texts 5, others 1. -/
def predictFix : String → String → Rat :=
  fun _ text => if text = "good" then 5 else 1

/-- Fixture: an environment with the cross-encoder loaded. -/
def envRerank : ServerEnv :=
  { embedding_models := [("m", modelFix)], cross_encoder_model := some predictFix }

/-- Fixture: a collection bound to embedding model `m` holding one document. -/
def collFix : Collection :=
  { name := "recipes",
    metadata := [("embedding_model", .str "m"), ("hnsw:space", .str "cosine")],
    docs := [{ id := "d1", text := "Chocolate cake",
               metadata := [("region", .str "B")], embedding := [1, 0] }] }

/-- Fixture: an engine state holding exactly `collFix`. -/
def stFix : ChromaState :=
  ⟨[collFix]⟩

/-- Fixture: a deterministic stand-in for the stream of uuid4 draws. -/
def uuidsFix : Nat → String :=
  fun n => "3f2a-" ++ toString n

/-- Fixture: an engine returning one inner hit list per query embedding. -/
def engineFix : EngineQuery :=
  fun _ _ _ _ =>
    { documents := [["Chocolate cake", "Tomato soup"]],
      metadatas := [[[("region", .str "B")], []]],
      distances := [[(1 : Rat), 2]] }
theorem MMap.get_append (x y : MMap) (k : String) :
    MMap.get (x ++ y) k = (x.get k).orElse fun _ => y.get k := by
  induction x with
  | nil => simp [MMap.get]
  | cons p xs ih =>
    obtain ⟨pk, pv⟩ := p
    by_cases h : pk = k
    · subst h
      simp [MMap.get, List.lookup]
    · have hbeq : (k == pk) = false := by
        simp only [beq_eq_false_iff_ne, ne_eq]
        exact fun he => h he.symm
      simpa [MMap.get, List.lookup, hbeq] using ih

theorem dictMerge_left_get (a b : MMap) (k : String) :
    MMap.get (a.map fun p =>
        match b.get p.1 with
        | some v => (p.1, v)
        | none => p) k =
      match a.get k with
      | some v => some ((b.get k).getD v)
      | none => none := by
  induction a with
  | nil => simp [MMap.get]
  | cons p as ih =>
    obtain ⟨pk, pv⟩ := p
    by_cases h : pk = k
    · subst h
      cases hb : List.lookup pk b <;>
        simp [MMap.get, List.lookup, hb]
    · have hbeq : (k == pk) = false := by
        simp only [beq_eq_false_iff_ne, ne_eq]
        exact fun he => h he.symm
      cases hb : List.lookup pk b with
      | some v =>
        simpa [MMap.get, List.lookup, hb, hbeq] using ih
      | none =>
        simpa [MMap.get, List.lookup, hb, hbeq] using ih

theorem dictMerge_right_get (a b : MMap) (k : String) :
    MMap.get (b.filter fun p => (a.get p.1).isNone) k =
      if (a.get k).isSome then none else b.get k := by
  induction b with
  | nil => simp [MMap.get]
  | cons p bs ih =>
    obtain ⟨pk, pv⟩ := p
    by_cases h : pk = k
    · subst h
      cases ha : List.lookup pk a with
      | some v => simpa [MMap.get, List.filter_cons, ha, List.lookup] using ih
      | none => simp [MMap.get, List.filter_cons, ha, List.lookup]
    · have hbeq : (k == pk) = false := by
        simp only [beq_eq_false_iff_ne, ne_eq]
        exact fun he => h he.symm
      cases ha : List.lookup pk a with
      | some v =>
        simpa [MMap.get, List.filter_cons, ha, List.lookup, hbeq] using ih
      | none =>
        simpa [MMap.get, List.filter_cons, ha, List.lookup, hbeq] using ih

/-- Merged lookup: the right dict wins on conflicting keys and the left dict
answers the rest, matching Python dict-merge semantics. -/
theorem dictMerge_get (a b : MMap) (k : String) :
    MMap.get (dictMerge a b) k = (b.get k).orElse fun _ => a.get k := by
  unfold dictMerge
  rw [MMap.get_append, dictMerge_left_get, dictMerge_right_get]
  cases ha : a.get k <;> cases hb : b.get k <;> simp [Option.orElse]

theorem find?_name_map_update (l : List Collection) (name : String)
    (f : Collection → Collection) (hf : ∀ c, (f c).name = c.name) :
    (l.map fun c => if c.name == name then f c else c).find?
        (fun c => c.name == name) =
      (l.find? fun c => c.name == name).map f := by
  induction l with
  | nil => rfl
  | cons c cs ih =>
    by_cases h : c.name == name
    · have hfc : ((f c).name == name) = true := by
        rw [hf c]
        exact h
      simp [List.find?, h, hfc]
    · have h' : (c.name == name) = false := by
        simpa using h
      simp only [List.map_cons, h', Bool.false_eq_true, if_false, List.find?, h']
      exact ih

theorem getCollection_modifyMetadata (st : ChromaState) (name : String)
    (metadata : MMap) :
    (st.modifyMetadata name metadata).getCollection name =
      (st.getCollection name).map fun c => { c with metadata := metadata } := by
  exact find?_name_map_update st.collections name _ (fun _ => rfl)

theorem getCollection_addDocs (st : ChromaState) (name : String)
    (batch : List StoredDoc) :
    (st.addDocs name batch).getCollection name =
      (st.getCollection name).map fun c => { c with docs := c.docs ++ batch } := by
  exact find?_name_map_update st.collections name _ (fun _ => rfl)

theorem getCollection_deleteDocs (st : ChromaState) (name : String)
    (ids : List String) :
    (st.deleteDocs name ids).getCollection name =
      (st.getCollection name).map fun c =>
        { c with docs := c.docs.filter fun d => ¬ ids.contains d.id } := by
  exact find?_name_map_update st.collections name _ (fun _ => rfl)

theorem getCollection_name_eq {st : ChromaState} {name : String}
    {c : Collection} (h : st.getCollection name = some c) : c.name = name := by
  have hm := List.find?_some h
  simpa using hm

/-- C1: creating a collection under an existing name.  The source's
duplicate-name pre-check raises its 400 inside a `try` whose bare
`except: pass` swallows the exception, so the request reaches the engine,
whose unique-constraint error the generic handler converts to 500 — not the
Conflict the spec promises — while the existing collection, its metadata and
its documents are indeed left unmodified. -/
theorem create_collection_duplicate_name_gives_500_not_conflict :
    create_collection envFix stFix
        { name := "recipes", metadata := some [], embedding_model := some "m" } =
      (.error 500, stFix) ∧
    (500 : Nat) ≠ 400 ∧ (500 : Nat) ≠ 409 := by
  exact ⟨rfl, by decide, by decide⟩

/-- C5: a query without a collection name fails 400 InvalidArgument, a query
naming a collection the engine does not know fails 404 NotFound, and both
failures leave the engine state untouched. -/
theorem query_db_absent_name_400_unknown_collection_404 (env : ServerEnv)
    (engineQuery : EngineQuery) (st : ChromaState) (request : QueryRequest) :
    (request.collection = none →
      query_db env engineQuery st request = (.error 400, st)) ∧
    (∀ name, request.collection = some name → name ≠ "" →
      st.getCollection name = none →
      query_db env engineQuery st request = (.error 404, st)) := by
  constructor
  · intro h
    simp [query_db, h]
  · intro name h hne hmiss
    simp [query_db, h, hne, hmiss]

theorem query_db_absent_name_400_unknown_collection_404_witness :
    query_db envFix engineFix stFix { query := "chocolate" } =
        (.error 400, stFix) ∧
      query_db envFix engineFix stFix
          { query := "chocolate", collection := some "ghost" } =
        (.error 404, stFix) :=
  ⟨(query_db_absent_name_400_unknown_collection_404 envFix engineFix stFix
      { query := "chocolate" }).1 rfl,
   (query_db_absent_name_400_unknown_collection_404 envFix engineFix stFix
      { query := "chocolate", collection := some "ghost" }).2 "ghost" rfl
      (by decide) rfl⟩

/-- C10: bulk document deletion on an existing collection always reports the
length of the requested id list as its count, however many of those ids named
stored documents; the engine drops exactly the named documents. -/
theorem delete_documents_count_is_request_length (st : ChromaState)
    (name : String) (ids : List String) (collection : Collection)
    (h : st.getCollection name = some collection) :
    ∃ resp st', delete_documents st name ids = (.ok resp, st') ∧
      resp.count = ids.length ∧
      ∃ c', st'.getCollection name = some c' ∧
        c'.docs = collection.docs.filter fun d => ¬ ids.contains d.id := by
  refine ⟨{ status := "deleted", collection := name, count := ids.length },
    st.deleteDocs name ids, ?_, rfl, ?_⟩
  · simp [delete_documents, h]
  · refine ⟨{ collection with
        docs := collection.docs.filter fun d => ¬ ids.contains d.id }, ?_, rfl⟩
    rw [getCollection_deleteDocs, h]
    rfl

theorem delete_documents_count_is_request_length_witness :
    ∃ resp st', delete_documents stFix "recipes" ["d1", "ghost-id"] =
        (.ok resp, st') ∧
      resp.count = ["d1", "ghost-id"].length ∧
      ∃ c', st'.getCollection "recipes" = some c' ∧
        c'.docs = collFix.docs.filter fun d => ¬ ["d1", "ghost-id"].contains d.id :=
  delete_documents_count_is_request_length stFix "recipes" ["d1", "ghost-id"]
    collFix rfl

/-- C7 counterexample: in merge mode the double-splat keeps every existing
key, so no request can remove the reserved `embedding_model` binding of the
fixture collection — refuting the claim that neither mode prevents its
removal. -/
theorem update_metadata_merge_preserves_reserved_key :
    ¬ ∃ newMetadata : MMap, ∃ c : Collection,
      (update_collection_metadata stFix "recipes"
          { metadata := newMetadata } true).2.getCollection "recipes" = some c ∧
      c.metadata.get "embedding_model" = none := by
  rintro ⟨newMetadata, c, hc, hnone⟩
  have hst : (update_collection_metadata stFix "recipes"
      { metadata := newMetadata } true).2 =
      stFix.modifyMetadata "recipes" (dictMerge collFix.metadata newMetadata) := rfl
  rw [hst, getCollection_modifyMetadata] at hc
  have hfix : stFix.getCollection "recipes" = some collFix := rfl
  rw [hfix] at hc
  simp only [Option.map_some'] at hc
  have hcm : c.metadata = dictMerge collFix.metadata newMetadata := by
    cases hc
    rfl
  rw [hcm, dictMerge_get] at hnone
  have hem : collFix.metadata.get "embedding_model" = some (.str "m") := rfl
  rw [hem] at hnone
  cases hk : newMetadata.get "embedding_model" <;> rw [hk] at hnone <;>
    simp [Option.orElse] at hnone

/-- C7 amended: on an existing collection, replace mode stores exactly the
request's metadata map — hence it can silently drop the reserved
`embedding_model` key — while merge mode stores the union with the request
winning conflicts, which can overwrite but never remove a key present in the
existing metadata, `embedding_model` included. -/
theorem update_metadata_replace_and_merge_semantics (st : ChromaState)
    (name : String) (request : UpdateCollectionMetadataRequest) (merge : Bool)
    (collection : Collection) (h : st.getCollection name = some collection) :
    ∃ resp st',
      update_collection_metadata st name request merge = (.ok resp, st') ∧
      (merge = false → resp.metadata = request.metadata) ∧
      (merge = true → ∀ k, resp.metadata.get k =
        (request.metadata.get k).orElse fun _ => collection.metadata.get k) ∧
      (∃ c', st'.getCollection name = some c' ∧ c'.metadata = resp.metadata) ∧
      (merge = false → request.metadata.get "embedding_model" = none →
        resp.metadata.get "embedding_model" = none) ∧
      (merge = true → (collection.metadata.get "embedding_model").isSome →
        (resp.metadata.get "embedding_model").isSome) := by
  cases merge with
  | false =>
    refine ⟨⟨"updated", name, request.metadata, false⟩,
      st.modifyMetadata name request.metadata, ?_, ?_, ?_, ?_, ?_, ?_⟩
    · simp [update_collection_metadata, h]
    · intro _
      rfl
    · intro hco
      simp at hco
    · refine ⟨{ collection with metadata := request.metadata }, ?_, rfl⟩
      rw [getCollection_modifyMetadata, h]
      rfl
    · intro _ hnone
      exact hnone
    · intro hco
      simp at hco
  | true =>
    refine ⟨⟨"updated", name, dictMerge collection.metadata request.metadata,
        true⟩,
      st.modifyMetadata name (dictMerge collection.metadata request.metadata),
      ?_, ?_, ?_, ?_, ?_, ?_⟩
    · simp [update_collection_metadata, h]
    · intro hco
      simp at hco
    · intro _ k
      exact dictMerge_get collection.metadata request.metadata k
    · refine ⟨{ collection with
          metadata := dictMerge collection.metadata request.metadata }, ?_, rfl⟩
      rw [getCollection_modifyMetadata, h]
      rfl
    · intro hco
      simp at hco
    · intro _ hsome
      rw [dictMerge_get]
      cases hk : request.metadata.get "embedding_model" with
      | some v => simp [Option.orElse]
      | none =>
        cases he : collection.metadata.get "embedding_model" with
        | some v => simp [Option.orElse]
        | none =>
          rw [he] at hsome
          simp at hsome

theorem update_metadata_replace_and_merge_semantics_witness :
    ∃ resp st',
      update_collection_metadata stFix "recipes"
          { metadata := [("a", .int 1)] } true = (.ok resp, st') ∧
      (true = false → resp.metadata = [("a", .int 1)]) ∧
      (true = true → ∀ k, resp.metadata.get k =
        (MMap.get [("a", .int 1)] k).orElse fun _ => collFix.metadata.get k) ∧
      (∃ c', st'.getCollection "recipes" = some c' ∧
        c'.metadata = resp.metadata) ∧
      (true = false → MMap.get [("a", .int 1)] "embedding_model" = none →
        resp.metadata.get "embedding_model" = none) ∧
      (true = true → (collFix.metadata.get "embedding_model").isSome →
        (resp.metadata.get "embedding_model").isSome) :=
  update_metadata_replace_and_merge_semantics stFix "recipes"
    { metadata := [("a", .int 1)] } true collFix rfl

/-- C8: on an existing collection, the metadata-values endpoint succeeds
without touching state and returns a strictly ascending (hence sorted and
duplicate-free) list containing exactly the stringified values of `field`
over documents whose metadata binds the field, with `count` its length. -/
theorem get_metadata_values_sorted_distinct (st : ChromaState)
    (collection_name field : String) (collection : Collection)
    (h : st.getCollection collection_name = some collection) :
    ∃ resp, get_metadata_values st collection_name field = (.ok resp, st) ∧
      resp.values.Nodup ∧
      resp.values.Pairwise (· < ·) ∧
      (∀ v, v ∈ resp.values ↔ ∃ d ∈ collection.docs, ∃ mv,
        d.metadata.get field = some mv ∧ pyStr mv = v) ∧
      resp.count = resp.values.length := by
  have hvals :
      ∃ resp, get_metadata_values st collection_name field = (.ok resp, st) ∧
        resp.values =
          ((collection.docs.filterMap fun d =>
            (d.metadata.get field).map pyStr).dedup).insertionSort (· ≤ ·) ∧
        resp.count = resp.values.length := by
    refine ⟨⟨field,
      ((collection.docs.filterMap fun d =>
        (d.metadata.get field).map pyStr).dedup).insertionSort (· ≤ ·),
      (((collection.docs.filterMap fun d =>
        (d.metadata.get field).map pyStr).dedup).insertionSort (· ≤ ·)).length⟩,
      ?_, rfl, rfl⟩
    simp [get_metadata_values, h]
  obtain ⟨resp, hcall, hvals, hcount⟩ := hvals
  have hperm := List.perm_insertionSort (α := String) (· ≤ ·)
    (collection.docs.filterMap fun d => (d.metadata.get field).map pyStr).dedup
  have hnd : resp.values.Nodup := by
    rw [hvals]
    exact hperm.symm.nodup (List.nodup_dedup _)
  have hsorted : resp.values.Pairwise (· ≤ ·) := by
    rw [hvals]
    exact List.sorted_insertionSort (· ≤ ·) _
  refine ⟨resp, hcall, hnd, ?_, ?_, hcount⟩
  · exact (hsorted.and hnd).imp fun hab => lt_of_le_of_ne hab.1 hab.2
  · intro v
    rw [hvals, List.mem_insertionSort, List.mem_dedup, List.mem_filterMap]
    constructor
    · rintro ⟨d, hd, hf⟩
      obtain ⟨mv, hmv, hpy⟩ := Option.map_eq_some'.mp hf
      exact ⟨d, hd, mv, hmv, hpy⟩
    · rintro ⟨d, hd, mv, hmv, hpy⟩
      exact ⟨d, hd, by rw [hmv, Option.map_some', hpy]⟩

theorem get_metadata_values_sorted_distinct_witness :
    ∃ resp, get_metadata_values stFix "recipes" "region" = (.ok resp, stFix) ∧
      resp.values.Nodup ∧
      resp.values.Pairwise (· < ·) ∧
      (∀ v, v ∈ resp.values ↔ ∃ d ∈ collFix.docs, ∃ mv,
        d.metadata.get "region" = some mv ∧ pyStr mv = v) ∧
      resp.count = resp.values.length :=
  get_metadata_values_sorted_distinct stFix "recipes" "region" collFix rfl

theorem processDocuments_error_of_empty_text (uuids : Nat → String)
    (docs : List DocumentReq) (hd : ∃ d ∈ docs, d.text.getD "" = "") :
    ∀ i, ∃ j, processDocuments uuids docs i = .error j := by
  induction docs with
  | nil =>
    obtain ⟨d, hd, _⟩ := hd
    cases hd
  | cons d rest ih =>
    intro i
    by_cases ht : d.text.getD "" = ""
    · exact ⟨i, by simp [processDocuments, ht]⟩
    · obtain ⟨d', hd', he⟩ := hd
      cases hd' with
      | head => exact absurd he ht
      | tail _ hmem =>
        obtain ⟨j, hj⟩ := ih ⟨d', hmem, he⟩ (i + 1)
        exact ⟨j, by simp [processDocuments, ht, hj, Except.map]⟩

theorem add_documents_empty_text_400 (env : ServerEnv) (uuids : Nat → String)
    (st : ChromaState) (name : String) (request : AddDocumentsRequest)
    (collection : Collection) (model : EmbModel)
    (hc : st.getCollection name = some collection)
    (hm : get_embedding_model_for_collection env collection = .ok model)
    (hex : ∃ d ∈ request.documents, d.text.getD "" = "") :
    add_documents env uuids st name request = (.error 400, st) := by
  obtain ⟨j, hj⟩ :=
    processDocuments_error_of_empty_text uuids request.documents hex 0
  have hne : request.documents.isEmpty = false := by
    obtain ⟨d, hd, _⟩ := hex
    cases hmem : request.documents with
    | nil => rw [hmem] at hd; cases hd
    | cons a l => rfl
  simp [add_documents, hc, hne, hm, hj]

theorem add_documents_error_state (env : ServerEnv) (uuids : Nat → String)
    (st : ChromaState) (name : String) (request : AddDocumentsRequest)
    (e : Nat) (st' : ChromaState)
    (h : add_documents env uuids st name request = (.error e, st')) :
    st' = st := by
  unfold add_documents at h
  cases hg : st.getCollection name with
  | none =>
    rw [hg] at h
    exact (congrArg Prod.snd h).symm
  | some collection =>
    rw [hg] at h
    dsimp only at h
    cases hde : request.documents.isEmpty with
    | true =>
      rw [if_pos hde] at h
      exact (congrArg Prod.snd h).symm
    | false =>
      have hde' : ¬ (request.documents.isEmpty = true) := by
        simp [hde]
      rw [if_neg hde'] at h
      cases hm : get_embedding_model_for_collection env collection with
      | error em =>
        rw [hm] at h
        exact (congrArg Prod.snd h).symm
      | ok model =>
        rw [hm] at h
        dsimp only at h
        cases hp : processDocuments uuids request.documents 0 with
        | error j =>
          rw [hp] at h
          exact (congrArg Prod.snd h).symm
        | ok triples =>
          rw [hp] at h
          dsimp only at h
          cases hte : (triples.map fun t => t.1).isEmpty with
          | true =>
            rw [if_pos hte] at h
            exact (congrArg Prod.snd h).symm
          | false =>
            have hte' : ¬ ((triples.map fun t => t.1).isEmpty = true) := by
              simp [hte]
            rw [if_neg hte'] at h
            exact Except.noConfusion (congrArg Prod.fst h)

/-- C2 amended: a missing collection makes `add_documents` fail with 500
Internal (the engine's lookup error is not mapped to NotFound); on an
existing collection an empty documents array fails 400 InvalidArgument, and,
provided the collection's bound model resolves, so does any entry lacking
non-empty text; every failure leaves the state unchanged. -/
theorem add_documents_validation_failures (env : ServerEnv)
    (uuids : Nat → String) (st : ChromaState) (name : String)
    (request : AddDocumentsRequest) :
    (st.getCollection name = none →
      add_documents env uuids st name request = (.error 500, st)) ∧
    (∀ collection, st.getCollection name = some collection →
      request.documents = [] →
      add_documents env uuids st name request = (.error 400, st)) ∧
    (∀ collection model, st.getCollection name = some collection →
      get_embedding_model_for_collection env collection = .ok model →
      (∃ d ∈ request.documents, d.text.getD "" = "") →
      add_documents env uuids st name request = (.error 400, st)) := by
  refine ⟨?_, ?_, ?_⟩
  · intro h
    simp [add_documents, h]
  · intro collection hc hdocs
    simp [add_documents, hc, hdocs]
  · intro collection model hc hm hex
    exact add_documents_empty_text_400 env uuids st name request collection
      model hc hm hex

theorem add_documents_validation_failures_witness :
    add_documents envFix uuidsFix ⟨[]⟩ "recipes"
        ⟨[{ text := some "hello" }]⟩ = (.error 500, (⟨[]⟩ : ChromaState)) ∧
    add_documents envFix uuidsFix stFix "recipes" ⟨[]⟩ =
        (.error 400, stFix) ∧
    add_documents envFix uuidsFix stFix "recipes"
        ⟨[{ text := some "Chocolate cake" }, { text := some "" }]⟩ =
        (.error 400, stFix) :=
  ⟨(add_documents_validation_failures envFix uuidsFix ⟨[]⟩ "recipes"
      ⟨[{ text := some "hello" }]⟩).1 rfl,
   (add_documents_validation_failures envFix uuidsFix stFix "recipes"
      ⟨[]⟩).2.1 collFix rfl rfl,
   (add_documents_validation_failures envFix uuidsFix stFix "recipes"
      ⟨[{ text := some "Chocolate cake" }, { text := some "" }]⟩).2.2 collFix
      modelFix rfl rfl
      ⟨{ text := some "" }, by simp, rfl⟩⟩

/-- C2 counterexample: adding a well-formed document to the nonexistent
collection `ghost` returns 500 Internal rather than the claimed 404
NotFound, because the engine's lookup error is caught only by the generic
handler. -/
theorem add_documents_missing_collection_not_404 :
    add_documents envFix uuidsFix stFix "ghost"
        ⟨[{ text := some "hello" }]⟩ = (.error 500, stFix) ∧
    (500 : Nat) ≠ 404 :=
  ⟨rfl, by decide⟩

/-- C4 amended: when the collection exists and its bound model resolves, a
document with empty text fails 400 InvalidArgument before any engine write;
and every failing `add_documents` call, whatever its error, adds zero
documents, returning the state unchanged. -/
theorem add_documents_empty_text_rejected_before_write (env : ServerEnv)
    (uuids : Nat → String) (st : ChromaState) (name : String)
    (request : AddDocumentsRequest) :
    (∀ collection model, st.getCollection name = some collection →
      get_embedding_model_for_collection env collection = .ok model →
      (∃ d ∈ request.documents, d.text.getD "" = "") →
      add_documents env uuids st name request = (.error 400, st)) ∧
    (∀ e st', add_documents env uuids st name request = (.error e, st') →
      st' = st) := by
  refine ⟨?_, ?_⟩
  · intro collection model hc hm hex
    exact add_documents_empty_text_400 env uuids st name request collection
      model hc hm hex
  · intro e st' h
    exact add_documents_error_state env uuids st name request e st' h

theorem add_documents_empty_text_rejected_before_write_witness :
    add_documents envFix uuidsFix stFix "recipes"
        ⟨[{ text := some "" }]⟩ = (.error 400, stFix) ∧
    stFix = stFix :=
  ⟨(add_documents_empty_text_rejected_before_write envFix uuidsFix stFix
      "recipes" ⟨[{ text := some "" }]⟩).1 collFix modelFix rfl rfl
      ⟨{ text := some "" }, by simp, rfl⟩,
   (add_documents_empty_text_rejected_before_write envFix uuidsFix stFix
      "recipes" ⟨[{ text := some "" }]⟩).2 400 stFix
      ((add_documents_empty_text_rejected_before_write envFix uuidsFix stFix
        "recipes" ⟨[{ text := some "" }]⟩).1 collFix modelFix rfl rfl
        ⟨{ text := some "" }, by simp, rfl⟩)⟩

/-- C4 counterexample: an empty-text document sent to a collection whose
bound model id `m` is not among the loaded models fails with 503
ServiceUnavailable — the model resolution precedes text validation — not
with the claimed 400 InvalidArgument. -/
theorem add_documents_empty_text_shadowed_by_503 :
    add_documents envNoModel uuidsFix stFix "recipes"
        ⟨[{ text := some "" }]⟩ = (.error 503, stFix) ∧
    (503 : Nat) ≠ 400 :=
  ⟨rfl, by decide⟩

theorem doc_generated_id_ne_empty (s : String) : "doc_" ++ s ≠ "" := by
  intro h
  have hlen := congrArg String.length h
  rw [String.length_append] at hlen
  have h4 : "doc_".length = 4 := rfl
  have h0 : "".length = 0 := rfl
  omega

theorem processDocuments_ok_spec (uuids : Nat → String)
    (docs : List DocumentReq) (h : ∀ d ∈ docs, d.text.getD "" ≠ "") :
    ∀ i, ∃ triples, processDocuments uuids docs i = .ok triples ∧
      triples.length = docs.length ∧
      ∀ (j : Nat) (d : DocumentReq), docs[j]? = some d →
        triples[j]? = some (d.text.getD "", d.metadata.getD [],
          match d.id with
          | some s => if s = "" then "doc_" ++ uuids (i + j) else s
          | none => "doc_" ++ uuids (i + j)) := by
  induction docs with
  | nil =>
    intro i
    refine ⟨[], rfl, rfl, ?_⟩
    intro j d hd
    simp at hd
  | cons d rest ih =>
    intro i
    have hd0 : d.text.getD "" ≠ "" := h d (List.mem_cons_self d rest)
    obtain ⟨ts, hts, hlen, hspec⟩ :=
      ih (fun d' hd' => h d' (List.mem_cons_of_mem d hd')) (i + 1)
    refine ⟨(d.text.getD "", d.metadata.getD [],
      match d.id with
      | some s => if s = "" then "doc_" ++ uuids i else s
      | none => "doc_" ++ uuids i) :: ts, ?_, by simp [hlen], ?_⟩
    · simp [processDocuments, hd0, hts, Except.map]
    · intro j d' hd'
      cases j with
      | zero =>
        simp only [List.getElem?_cons_zero, Option.some.injEq] at hd'
        subst hd'
        simp
      | succ j' =>
        simp only [List.getElem?_cons_succ] at hd'
        have hj := hspec j' d' hd'
        simp only [List.getElem?_cons_succ]
        rw [hj]
        have harith : i + 1 + j' = i + (j' + 1) := by omega
        rw [harith]

/-- C9: when ingestion succeeds, the id stored (and returned) for the
document at index `j` is the supplied id exactly when that id is a non-empty
string; a missing or falsy (empty-string) id is replaced by the freshly
generated `doc_`-prefixed uuid draw, which in particular never equals the
empty string that was supplied. -/
theorem add_documents_id_assignment (env : ServerEnv) (uuids : Nat → String)
    (st : ChromaState) (name : String) (request : AddDocumentsRequest)
    (collection : Collection) (model : EmbModel)
    (hc : st.getCollection name = some collection)
    (hm : get_embedding_model_for_collection env collection = .ok model)
    (htext : ∀ d ∈ request.documents, d.text.getD "" ≠ "")
    (hne : request.documents ≠ []) :
    ∃ resp st', add_documents env uuids st name request = (.ok resp, st') ∧
      resp.ids.length = request.documents.length ∧
      (∀ (j : Nat) (d : DocumentReq), request.documents[j]? = some d →
        ((d.id = none ∨ d.id = some "") →
          resp.ids[j]? = some ("doc_" ++ uuids j)) ∧
        (∀ s, d.id = some s → s ≠ "" → resp.ids[j]? = some s) ∧
        (d.id = some "" → resp.ids[j]? ≠ some "")) ∧
      (∃ c', st'.getCollection name = some c' ∧
        c'.docs.map (fun sd => sd.id) =
          collection.docs.map (fun sd => sd.id) ++ resp.ids) := by
  obtain ⟨triples, hts, hlen, hspec⟩ :=
    processDocuments_ok_spec uuids request.documents htext 0
  have hde : request.documents.isEmpty = false := by
    cases hd : request.documents with
    | nil => exact absurd hd hne
    | cons a l => rfl
  have htne : triples ≠ [] := by
    intro hnil
    rw [hnil] at hlen
    cases hd : request.documents with
    | nil => exact absurd hd hne
    | cons a l =>
      rw [hd] at hlen
      simp at hlen
  have hte : ((triples.map fun t => t.1).isEmpty) = false := by
    cases ht : triples with
    | nil => exact absurd ht htne
    | cons a l => rfl
  have hnm : collection.name = name := getCollection_name_eq hc
  refine ⟨AddDocumentsResponse.mk "added" name
      ((triples.map fun t => t.1).length) (triples.map fun t => t.2.2),
    st.addDocs collection.name (triples.map fun t =>
      StoredDoc.mk t.2.2 t.1 t.2.1 (model.encode t.1)), ?_, ?_, ?_, ?_⟩
  · have hte' : ¬ ((triples.map fun t => t.1).isEmpty = true) := by
      simp [hte]
    have hde' : ¬ (request.documents.isEmpty = true) := by
      simp [hde]
    unfold add_documents
    rw [hc]
    dsimp only
    rw [if_neg hde', hm]
    dsimp only
    rw [hts]
    dsimp only
    rw [if_neg hte']
  · simp [hlen]
  · intro j d hd
    have hj := hspec j d hd
    have hid : (triples.map fun t => t.2.2)[j]? =
        some (match d.id with
          | some s => if s = "" then "doc_" ++ uuids (0 + j) else s
          | none => "doc_" ++ uuids (0 + j)) := by
      rw [List.getElem?_map, hj]
      rfl
    rw [Nat.zero_add] at hid
    refine ⟨?_, ?_, ?_⟩
    · intro hcase
      cases hcase with
      | inl hnone => rw [hid, hnone]
      | inr hempty => rw [hid, hempty]; simp
    · intro s hs hsne
      rw [hid, hs]
      simp [hsne]
    · intro hempty
      rw [hid, hempty]
      dsimp only
      rw [if_pos rfl]
      intro hcontra
      exact doc_generated_id_ne_empty (uuids j) (Option.some.inj hcontra)
  · refine ⟨Collection.mk collection.name collection.metadata
      (collection.docs ++ triples.map fun t =>
        StoredDoc.mk t.2.2 t.1 t.2.1 (model.encode t.1)), ?_, ?_⟩
    · rw [hnm, getCollection_addDocs, hc]
      simp [hnm]
    · simp [List.map_append, List.map_map]

theorem add_documents_id_assignment_witness :
    ∃ resp st',
      add_documents envFix uuidsFix stFix "recipes"
          (AddDocumentsRequest.mk
            [DocumentReq.mk (some "t1") none (some "keep"),
             DocumentReq.mk (some "t2") none (some ""),
             DocumentReq.mk (some "t3") none none]) = (.ok resp, st') ∧
      resp.ids.length =
        [DocumentReq.mk (some "t1") none (some "keep"),
         DocumentReq.mk (some "t2") none (some ""),
         DocumentReq.mk (some "t3") none none].length ∧
      (∀ (j : Nat) (d : DocumentReq),
        [DocumentReq.mk (some "t1") none (some "keep"),
         DocumentReq.mk (some "t2") none (some ""),
         DocumentReq.mk (some "t3") none none][j]? = some d →
        ((d.id = none ∨ d.id = some "") →
          resp.ids[j]? = some ("doc_" ++ uuidsFix j)) ∧
        (∀ s, d.id = some s → s ≠ "" → resp.ids[j]? = some s) ∧
        (d.id = some "" → resp.ids[j]? ≠ some "")) ∧
      (∃ c', st'.getCollection "recipes" = some c' ∧
        c'.docs.map (fun sd => sd.id) =
          collFix.docs.map (fun sd => sd.id) ++ resp.ids) :=
  add_documents_id_assignment envFix uuidsFix stFix "recipes"
    (AddDocumentsRequest.mk
      [DocumentReq.mk (some "t1") none (some "keep"),
       DocumentReq.mk (some "t2") none (some ""),
       DocumentReq.mk (some "t3") none none]) collFix modelFix rfl rfl
    (by decide) (by decide)

theorem pair_sublist_total {α : Type u_1} {x y : α} {s : List α} (hx : x ∈ s)
    (hy : y ∈ s) (hne : x ≠ y) : [x, y].Sublist s ∨ [y, x].Sublist s := by
  induction s with
  | nil => cases hx
  | cons a t ih =>
    cases hx with
    | head =>
      cases hy with
      | head => exact absurd rfl hne
      | tail _ hyt =>
        exact Or.inl (List.Sublist.cons₂ _ (List.singleton_sublist.mpr hyt))
    | tail _ hxt =>
      cases hy with
      | head =>
        exact Or.inr (List.Sublist.cons₂ _ (List.singleton_sublist.mpr hxt))
      | tail _ hyt =>
        exact (ih hxt hyt).imp (List.Sublist.cons a) (List.Sublist.cons a)

theorem pair_sublist_antisymm {α : Type u_1} {x y : α} {s : List α}
    (hs : s.Nodup) (hxy : [x, y].Sublist s) (hyx : [y, x].Sublist s) :
    x = y := by
  induction s with
  | nil => cases hxy
  | cons a t ih =>
    have hnd := List.nodup_cons.mp hs
    cases hxy with
    | cons _ hxy' =>
      cases hyx with
      | cons _ hyx' => exact ih hnd.2 hxy' hyx'
      | cons₂ _ hx' =>
        have hyt : y ∈ t := hxy'.subset (by simp)
        exact absurd hyt hnd.1
    | cons₂ _ hy' =>
      cases hyx with
      | cons _ hyx' =>
        have hxt : x ∈ t := hyx'.subset (by simp)
        exact absurd hxt hnd.1
      | cons₂ _ hx' => rfl

theorem scoreDocs_length (q : String) (p : String → String → Rat) :
    ∀ (docs : List RerankDoc) (i : Nat),
      (scoreDocs q p docs i).length = docs.length := by
  intro docs
  induction docs with
  | nil => intro i; rfl
  | cons d rest ih => intro i; simp [scoreDocs, ih]

theorem scoreDocs_rank_gt (q : String) (p : String → String → Rat) :
    ∀ (docs : List RerankDoc) (i : Nat),
      ∀ e ∈ scoreDocs q p docs i, i < e.original_rank := by
  intro docs
  induction docs with
  | nil => intro i e he; cases he
  | cons d rest ih =>
    intro i e he
    cases List.mem_cons.mp he with
    | inl heq =>
      rw [heq]
      dsimp only
      omega
    | inr hmem =>
      have := ih (i + 1) e hmem
      omega

theorem scoreDocs_rank_mono (q : String) (p : String → String → Rat) :
    ∀ (docs : List RerankDoc) (i : Nat),
      (scoreDocs q p docs i).Pairwise
        (fun a b => a.original_rank < b.original_rank) := by
  intro docs
  induction docs with
  | nil => intro i; exact List.Pairwise.nil
  | cons d rest ih =>
    intro i
    refine List.Pairwise.cons ?_ (ih (i + 1))
    intro b hb
    exact scoreDocs_rank_gt q p rest (i + 1) b hb

theorem scoreDocs_mem_spec (q : String) (p : String → String → Rat) :
    ∀ (docs : List RerankDoc) (i : Nat), ∀ e ∈ scoreDocs q p docs i,
      ∃ j d, docs[j]? = some d ∧ e.original_rank = i + j + 1 ∧
        e.id = d.id ∧ e.score = p q d.text := by
  intro docs
  induction docs with
  | nil => intro i e he; cases he
  | cons d rest ih =>
    intro i e he
    cases List.mem_cons.mp he with
    | inl heq =>
      subst heq
      exact ⟨0, d, by simp, by simp, rfl, rfl⟩
    | inr hmem =>
      obtain ⟨j, d', hj, hrank, hid, hscore⟩ := ih (i + 1) e hmem
      refine ⟨j + 1, d', by simpa using hj, by omega, hid, hscore⟩

theorem stable_desc_sort_pairwise (l : List ScoredDoc)
    (hl : l.Pairwise fun a b => a.original_rank < b.original_rank) :
    (l.insertionSort rerankLe).Pairwise
      (fun a b => b.score < a.score ∨
        (a.score = b.score ∧ a.original_rank < b.original_rank)) := by
  have hsorted : (l.insertionSort rerankLe).Pairwise rerankLe :=
    List.sorted_insertionSort rerankLe l
  have hperm := List.perm_insertionSort rerankLe l
  have hlnd : l.Nodup := by
    refine hl.imp ?_
    intro a b hr he
    rw [he] at hr
    exact lt_irrefl _ hr
  have hnd : (l.insertionSort rerankLe).Nodup := hperm.symm.nodup hlnd
  rw [List.pairwise_iff_forall_sublist]
  intro a b hsub
  have hle : rerankLe a b := List.pairwise_iff_forall_sublist.mp hsorted hsub
  by_cases hscore : b.score < a.score
  · exact Or.inl hscore
  · have heq : a.score = b.score := le_antisymm (not_lt.mp hscore) hle
    refine Or.inr ⟨heq, ?_⟩
    have hne : a ≠ b := by
      have hpairnd : ([a, b] : List ScoredDoc).Nodup := hsub.nodup hnd
      simp only [List.nodup_cons, List.mem_singleton] at hpairnd
      exact hpairnd.1
    have hma : a ∈ l := hperm.subset (hsub.subset (by simp))
    have hmb : b ∈ l := hperm.subset (hsub.subset (by simp))
    rcases pair_sublist_total hma hmb hne with hpair | hpair
    · exact List.pairwise_iff_forall_sublist.mp hl hpair
    · have hba : rerankLe b a := le_of_eq heq
      have hstable := List.pair_sublist_insertionSort (r := rerankLe) hba hpair
      exact absurd (pair_sublist_antisymm hnd hsub hstable) hne

/-- C3 amended: with the cross-encoder loaded and `topK = n ≥ 1`, rerank
succeeds with exactly `min n (number of candidates)` entries, ordered by
strictly descending score with ties broken by ascending `original_rank`
(input order — the stable sort), and every returned entry carries the
cross-encoder score of its own (query, text) pair, computed independently of
the other candidates. -/
theorem rerank_topk_sorted_stable (env : ServerEnv)
    (predict : String → String → Rat) (request : RerankRequest) (n : Int)
    (hce : env.cross_encoder_model = some predict)
    (hk : request.top_k = some n) (hn : 1 ≤ n) :
    ∃ resp, rerank_documents env request = .ok resp ∧
      resp.reranked.length = min n.toNat request.documents.length ∧
      resp.reranked.Pairwise (fun a b => b.score < a.score ∨
        (a.score = b.score ∧ a.original_rank < b.original_rank)) ∧
      ∀ e ∈ resp.reranked, ∃ j d, request.documents[j]? = some d ∧
        e.original_rank = j + 1 ∧ e.id = d.id ∧
        e.score = predict request.query d.text := by
  have hn0 : n ≠ 0 := by omega
  have hnn : (0 : Int) ≤ n := by omega
  refine ⟨⟨pySliceTo ((scoreDocs request.query predict request.documents
      0).insertionSort rerankLe) n⟩, ?_, ?_, ?_, ?_⟩
  · unfold rerank_documents
    rw [hce]
    dsimp only
    rw [hk]
    dsimp only
    rw [if_neg hn0]
  · unfold pySliceTo
    rw [if_pos hnn]
    rw [List.length_take, List.length_insertionSort, scoreDocs_length]
  · have hp := stable_desc_sort_pairwise _
      (scoreDocs_rank_mono request.query predict request.documents 0)
    refine List.Pairwise.sublist ?_ hp
    unfold pySliceTo
    rw [if_pos hnn]
    exact List.take_sublist _ _
  · intro e he
    have hmem : e ∈ (scoreDocs request.query predict request.documents
        0).insertionSort rerankLe := by
      unfold pySliceTo at he
      rw [if_pos hnn] at he
      exact List.mem_of_mem_take he
    rw [List.mem_insertionSort] at hmem
    obtain ⟨j, d, hj, hrank, hid, hscore⟩ :=
      scoreDocs_mem_spec request.query predict request.documents 0 e hmem
    exact ⟨j, d, hj, by omega, hid, hscore⟩

theorem rerank_topk_sorted_stable_witness :
    ∃ resp, rerank_documents envRerank
        (RerankRequest.mk "q"
          [RerankDoc.mk "a" "good", RerankDoc.mk "b" "bad",
           RerankDoc.mk "c" "good"] (some 2)) = .ok resp ∧
      resp.reranked.length = min (Int.toNat 2)
        [RerankDoc.mk "a" "good", RerankDoc.mk "b" "bad",
         RerankDoc.mk "c" "good"].length ∧
      resp.reranked.Pairwise (fun a b => b.score < a.score ∨
        (a.score = b.score ∧ a.original_rank < b.original_rank)) ∧
      ∀ e ∈ resp.reranked, ∃ j d,
        [RerankDoc.mk "a" "good", RerankDoc.mk "b" "bad",
         RerankDoc.mk "c" "good"][j]? = some d ∧
        e.original_rank = j + 1 ∧ e.id = d.id ∧
        e.score = predictFix "q" d.text :=
  rerank_topk_sorted_stable envRerank predictFix
    (RerankRequest.mk "q"
      [RerankDoc.mk "a" "good", RerankDoc.mk "b" "bad",
       RerankDoc.mk "c" "good"] (some 2)) 2 rfl rfl (by decide)

/-- C3 counterexample: with the reranker loaded, one candidate and
`topK = 0`, the endpoint returns one entry, not `min 0 1 = 0`: the source's
`if request.top_k:` treats a zero topK as absent and skips truncation. -/
theorem rerank_topk_zero_not_truncated :
    rerank_documents envRerank
        (RerankRequest.mk "q" [RerankDoc.mk "a" "good"] (some 0)) =
      .ok ⟨[ScoredDoc.mk "a" 5 1]⟩ ∧
    ([ScoredDoc.mk "a" 5 1] : List ScoredDoc).length ≠ min (Int.toNat 0) 1 :=
  ⟨rfl, by decide⟩

/-- C6: when the engine lookup, the model resolution and the engine search
succeed — the engine returning, per its nearest-neighbour contract, one inner
list per field of equal lengths with distances ascending — the endpoint
succeeds without touching state and returns the hits in engine order as
(text, distance, metadata) records ascending by distance, alongside the
collection's metadata; zero engine matches yield an empty results sequence,
still a success. -/
theorem query_db_results_ascending (env : ServerEnv)
    (engineQuery : EngineQuery) (st : ChromaState) (request : QueryRequest)
    (name : String) (collection : Collection) (model : EmbModel)
    (inner_docs : List String) (inner_metas : List MMap)
    (inner_dists : List Rat)
    (hname : request.collection = some name) (hnz : name ≠ "")
    (hc : st.getCollection name = some collection)
    (hm : get_embedding_model_for_collection env collection = .ok model)
    (heng : engineQuery collection (model.encode request.query) request.top_k
      request.whereFilter =
      ⟨[inner_docs], [inner_metas], [inner_dists]⟩)
    (_hld : inner_docs.length = inner_metas.length)
    (hldist : inner_dists.length = inner_metas.length)
    (hsorted : inner_dists.Pairwise (· ≤ ·)) :
    ∃ resp, query_db env engineQuery st request = (.ok resp, st) ∧
      resp.collection_metadata = some collection.metadata ∧
      resp.results.length = inner_metas.length ∧
      resp.results.Pairwise (fun a b => a.distance ≤ b.distance) ∧
      (∀ i, i < inner_metas.length → resp.results[i]? =
        some ⟨inner_docs.getD i "", inner_dists.getD i 1,
          inner_metas.getD i []⟩) ∧
      (inner_metas = [] → resp.results = []) := by
  refine ⟨⟨(List.range inner_metas.length).map fun i =>
      ⟨inner_docs.getD i "", inner_dists.getD i 1, inner_metas.getD i []⟩,
    some collection.metadata, none⟩, ?_, rfl, ?_, ?_, ?_, ?_⟩
  · unfold query_db
    rw [hname]
    dsimp only
    rw [if_neg (by simp [hnz])]
    dsimp only [Option.getD_some]
    rw [hc]
    dsimp only
    rw [hm]
    dsimp only
    rw [heng]
    rfl
  · simp
  · rw [List.pairwise_iff_get]
    intro i j hij
    have hleni : ((List.range inner_metas.length).map fun i =>
        (⟨inner_docs.getD i "", inner_dists.getD i 1,
          inner_metas.getD i []⟩ : QueryHit)).length =
        inner_metas.length := by simp
    have hi : (i : Nat) < inner_metas.length := by
      have h0 := i.isLt
      simpa using h0
    have hj : (j : Nat) < inner_metas.length := by
      have h0 := j.isLt
      simpa using h0
    simp only [List.get_eq_getElem, List.getElem_map, List.getElem_range]
    have hdi : (i : Nat) < inner_dists.length := by omega
    have hdj : (j : Nat) < inner_dists.length := by omega
    rw [List.getD_eq_getElem inner_dists 1 hdi,
      List.getD_eq_getElem inner_dists 1 hdj]
    have hpair := List.pairwise_iff_get.mp hsorted ⟨(i : Nat), hdi⟩
      ⟨(j : Nat), hdj⟩ (by simpa using hij)
    simpa using hpair
  · intro i hi
    rw [List.getElem?_map, List.getElem?_range]
    all_goals simp [hi]
  · intro h
    simp [h]

theorem query_db_results_ascending_witness :
    ∃ resp, query_db envFix engineFix stFix
        (QueryRequest.mk "chocolate dessert" 3 (some "recipes") none) =
        (.ok resp, stFix) ∧
      resp.collection_metadata = some collFix.metadata ∧
      resp.results.length = [[("region", MValue.str "B")], []].length ∧
      resp.results.Pairwise (fun a b => a.distance ≤ b.distance) ∧
      (∀ i, i < [[("region", MValue.str "B")], []].length →
        resp.results[i]? =
        some ⟨["Chocolate cake", "Tomato soup"].getD i "",
          [(1 : Rat), 2].getD i 1,
          [[("region", MValue.str "B")], []].getD i []⟩) ∧
      ([[("region", MValue.str "B")], []] = ([] : List MMap) →
        resp.results = []) :=
  query_db_results_ascending envFix engineFix stFix
    (QueryRequest.mk "chocolate dessert" 3 (some "recipes") none) "recipes"
    collFix modelFix ["Chocolate cake", "Tomato soup"]
    [[("region", MValue.str "B")], []] [(1 : Rat), 2]
    rfl (by decide) rfl rfl rfl rfl rfl (by decide)
